import Mathlib

/-!
Verification of the grease-socket task (src/grease-socket/src/lib.rs).

The socket task is a single-threaded reactor owning listening sockets and
accepted connections.  We embed its per-message handlers shallowly: the
`TaskContext` state (the `listeners` and `connections` maps, `next_handle`,
and the set of poll registrations) becomes a Lean structure, socket I/O
outcomes (`read`, `write`, `accept`, `bind`, `register`) are passed in as
explicit oracle arguments, and every handler returns the updated state
together with the list of Confirms and Indications it delivered, in
delivery order.  Client sinks (`ServiceUserHandle`) are identified by
numeric ids.
-/

set_option linter.unusedVariables false

namespace Grease

/-- Error kinds of the underlying OS I/O errors (`std::io::ErrorKind`);
`wouldBlock` is the kind the reactor treats specially, the rest are opaque. -/
inductive IOErrorKind where
  | wouldBlock
  | other (code : Nat)
deriving DecidableEq

/-- SocketError from lib.rs: all errors the socket task reports. -/
inductive SocketError where
  | ioError (k : IOErrorKind)
  | badHandle
  | dropped
  | notImplemented
deriving DecidableEq

/-- Result type mirroring Rust `Result` as used in the Confirm messages. -/
inductive RResult (α : Type) where
  | ok (val : α)
  | err (e : SocketError)
deriving DecidableEq

/-- CfmBind from lib.rs: reply to a ReqBind. -/
structure CfmBind where
  result : RResult Nat
  context : Nat
deriving DecidableEq

/-- CfmClose from lib.rs: reply to a ReqClose. -/
structure CfmClose where
  handle : Nat
  result : RResult Unit
  context : Nat
deriving DecidableEq

/-- CfmSend from lib.rs: reply to a ReqSend. -/
structure CfmSend where
  handle : Nat
  result : RResult Nat
  context : Nat
deriving DecidableEq

/-- Confirm from lib.rs. -/
inductive Confirm where
  | bind (m : CfmBind)
  | close (m : CfmClose)
  | send (m : CfmSend)
deriving DecidableEq

/-- IndConnected from lib.rs (peer address as an opaque id). -/
structure IndConnected where
  listen_handle : Nat
  conn_handle : Nat
  peer : Nat
deriving DecidableEq

/-- IndDropped from lib.rs. -/
structure IndDropped where
  handle : Nat
deriving DecidableEq

/-- IndReceived from lib.rs (bytes as naturals). -/
structure IndReceived where
  handle : Nat
  data : List Nat
deriving DecidableEq

/-- Indication from lib.rs. -/
inductive Indication where
  | connected (m : IndConnected)
  | dropped (m : IndDropped)
  | received (m : IndReceived)
deriving DecidableEq

/-- A delivery performed by the task: a Confirm or an Indication, sent to the
sink identified by `sink` (a `send_confirm` or `send_indication` call). -/
inductive Event where
  | cfm (sink : Nat) (c : Confirm)
  | ind (sink : Nat) (i : Indication)
deriving DecidableEq

/-- PendingWrite from lib.rs. -/
structure PendingWrite where
  context : Nat
  sent : Nat
  data : List Nat
  reply_to : Nat
deriving DecidableEq

/-- ConnectedSocket from lib.rs (the `mio` stream itself is external; its
poll registration is tracked in `TaskContext.registered`). -/
structure ConnectedSocket where
  ind_to : Nat
  handle : Nat
  outstanding : Bool
  pending_writes : List PendingWrite
deriving DecidableEq

/-- ListenSocket from lib.rs. -/
structure ListenSocket where
  handle : Nat
  ind_to : Nat
deriving DecidableEq

/-- TaskContext from lib.rs.  The two HashMaps become association lists;
`registered` is the set of tokens currently registered with the `mio::Poll`
object (the channel `mio_rx` is registered under token 0). -/
structure TaskContext where
  listeners : List (Nat × ListenSocket)
  connections : List (Nat × ConnectedSocket)
  next_handle : Nat
  registered : List Nat
deriving DecidableEq

/-- MAX_READ_LEN from lib.rs. -/
def MAX_READ_LEN : Nat := 2048

/-- MESSAGE_TOKEN from lib.rs: the control channel's poll token. -/
def MESSAGE_TOKEN : Nat := 0

/-- Outcome of a `connection.read` call into a fresh buffer: either the bytes
the OS returned (reading zero bytes means the peer closed) or an error. -/
inductive ReadResult where
  | ok (bytes : List Nat)
  | err (k : IOErrorKind)

/-- Outcome of a `connection.write` call: bytes accepted or an error. -/
inductive WriteResult where
  | ok (n : Nat)
  | err (k : IOErrorKind)

/-- Outcome of `TcpListener::bind`. -/
inductive BindResult where
  | ok
  | err (k : IOErrorKind)

/-- Outcome of `poll.register` for a new listener. -/
inductive RegisterResult where
  | ok
  | err (k : IOErrorKind)

/-- ConnectionType from lib.rs (only Stream exists). -/
inductive ConnectionType where
  | stream

/-- HashMap lookup on the association-list model. -/
def lookupA {α : Type} (k : Nat) : List (Nat × α) → Option α
  | [] => none
  | (k', v) :: rest => if k' = k then some v else lookupA k rest

/-- HashMap remove on the association-list model. -/
def eraseA {α : Type} (k : Nat) : List (Nat × α) → List (Nat × α)
  | [] => []
  | (k', v) :: rest => if k' = k then eraseA k rest else (k', v) :: eraseA k rest

/-- In-place update (`get_mut` mutation) on the association-list model. -/
def updateA {α : Type} (k : Nat) (v : α) : List (Nat × α) → List (Nat × α)
  | [] => []
  | (k', v') :: rest =>
    if k' = k then (k, v) :: updateA k v rest else (k', v') :: updateA k v rest

/-- Modelled from the spec: `Context::take` of the grease core crate (part of
this repository but not under src/).  Per the spec, it returns the current
`next_handle` and post-increments it. -/
def contextTake (c : Nat) : Nat × Nat := (c, c + 1)

/-- The flush performed by `impl Drop for ConnectedSocket` (lib.rs 739-750):
every still-queued PendingWrite gets a CfmSend carrying `self.handle` with
result `Err(Dropped)`, in queue order. -/
def flushWrites (h : Nat) (q : List PendingWrite) : List Event :=
  q.map (fun pw =>
    Event.cfm pw.reply_to (Confirm.send ⟨h, RResult.err SocketError.dropped, pw.context⟩))

/-- Events emitted when a ConnectedSocket value is dropped. -/
def flushEvents (cs : ConnectedSocket) : List Event :=
  flushWrites cs.handle cs.pending_writes

/-- The queue-draining loop of `TaskContext::pending_writes` (lib.rs 472-514).
`oracle i` is the outcome of the i-th `connection.write` call.  A full write
confirms `Ok` and continues; a partial write updates `sent`, pushes the write
back on the front and stops; a write error (of any kind) confirms `Err` for
the popped write and stops, leaving the rest queued. -/
def drainWrites (h : Nat) (oracle : Nat → WriteResult) :
    Nat → List PendingWrite → List PendingWrite × List Event
  | _, [] => ([], [])
  | i, pw :: rest =>
    let to_send := pw.data.length - pw.sent
    match oracle i with
    | WriteResult.ok len =>
      if len < to_send then
        ({ pw with sent := pw.sent + len } :: rest, [])
      else
        let done : PendingWrite := { pw with sent := pw.sent + to_send }
        let next := drainWrites h oracle (i + 1) rest
        (next.1,
          Event.cfm pw.reply_to (Confirm.send ⟨h, RResult.ok done.sent, pw.context⟩) :: next.2)
    | WriteResult.err k =>
      (rest,
        [Event.cfm pw.reply_to (Confirm.send ⟨h, RResult.err (SocketError.ioError k), pw.context⟩)])

/-- The per-connection body of `TaskContext::handle_send` (lib.rs 650-702):
if the queue is non-empty the write is appended with `sent = 0` and no
Confirm; otherwise one write is attempted (`w` is its outcome). -/
def sendOnConn (handle context : Nat) (data : List Nat) (reply_to : Nat) (w : WriteResult)
    (q : List PendingWrite) : List PendingWrite × List Event :=
  let to_send := data.length
  if q.isEmpty then
    match w with
    | WriteResult.ok len =>
      if len < to_send then
        (q ++ [⟨context, len, data, reply_to⟩], [])
      else
        (q, [Event.cfm reply_to (Confirm.send ⟨handle, RResult.ok to_send, context⟩)])
    | WriteResult.err k =>
      (q, [Event.cfm reply_to (Confirm.send ⟨handle, RResult.err (SocketError.ioError k), context⟩)])
  else
    (q ++ [⟨context, 0, data, reply_to⟩], [])

/-- TaskContext::dropped (lib.rs 560-566): remove the record, deregister its
stream, send IndDropped, and then the record's destructor flushes the queued
writes (so the flush confirms follow the IndDropped).  The code unwraps the
removal; callers only invoke it for present handles, and for an absent handle
we model no effect. -/
def dropped (s : TaskContext) (cs_handle : Nat) : TaskContext × List Event :=
  match lookupA cs_handle s.connections with
  | some cs =>
    ( { s with
        connections := eraseA cs_handle s.connections,
        registered := s.registered.erase cs_handle },
      Event.ind cs.ind_to (Indication.dropped ⟨cs_handle⟩) :: flushEvents cs )
  | none => (s, [])

/-- TaskContext::read_from_socket (lib.rs 517-557).  `r` is the outcome of
the single `connection.read` into a MAX_READ_LEN buffer (so at most
MAX_READ_LEN bytes come back). -/
def read_from_socket (s : TaskContext) (cs_handle : Nat) (r : ReadResult) :
    TaskContext × List Event :=
  match lookupA cs_handle s.connections with
  | some cs =>
    if cs.outstanding then (s, [])
    else
      match r with
      | ReadResult.ok bytes =>
        let buffer := bytes.take MAX_READ_LEN
        if buffer.length = 0 then dropped s cs_handle
        else
          ( { s with
              connections := updateA cs_handle { cs with outstanding := true } s.connections },
            [Event.ind cs.ind_to (Indication.received ⟨cs.handle, buffer⟩)] )
      | ReadResult.err k =>
        if k = IOErrorKind.wouldBlock then (s, []) else dropped s cs_handle
  | none => (s, [])

/-- TaskContext::pending_writes (lib.rs 472-514), the writable-event entry. -/
def pending_writes (s : TaskContext) (cs_handle : Nat) (oracle : Nat → WriteResult) :
    TaskContext × List Event :=
  match lookupA cs_handle s.connections with
  | some cs =>
    let res := drainWrites cs.handle oracle 0 cs.pending_writes
    ( { s with
        connections := updateA cs_handle { cs with pending_writes := res.1 } s.connections },
      res.2 )
  | none => (s, [])

/-- TaskContext::handle_close (lib.rs 633-646): remove the connection if
present (its destructor flushes the queued writes before the CfmClose is
sent), reply Ok when it was present and Err(BadHandle) otherwise.  Note that
no `poll.deregister` happens here. -/
def handle_close (s : TaskContext) (handle context reply_to : Nat) :
    TaskContext × List Event :=
  match lookupA handle s.connections with
  | some cs =>
    ( { s with connections := eraseA handle s.connections },
      flushEvents cs ++ [Event.cfm reply_to (Confirm.close ⟨handle, RResult.ok (), context⟩)] )
  | none =>
    ( s, [Event.cfm reply_to (Confirm.close ⟨handle, RResult.err SocketError.badHandle, context⟩)] )

/-- TaskContext::handle_send (lib.rs 649-711). -/
def handle_send (s : TaskContext) (handle context : Nat) (data : List Nat) (reply_to : Nat)
    (w : WriteResult) : TaskContext × List Event :=
  match lookupA handle s.connections with
  | some cs =>
    let res := sendOnConn handle context data reply_to w cs.pending_writes
    ( { s with
        connections := updateA handle { cs with pending_writes := res.1 } s.connections },
      res.2 )
  | none =>
    ( s, [Event.cfm reply_to (Confirm.send ⟨handle, RResult.err SocketError.badHandle, context⟩)] )

/-- TaskContext::handle_received (lib.rs 721-736): clear `outstanding` and
re-run the read path when the handle is known; silently ignore it otherwise. -/
def handle_received (s : TaskContext) (handle : Nat) (r : ReadResult) :
    TaskContext × List Event :=
  match lookupA handle s.connections with
  | some cs =>
    read_from_socket
      { s with connections := updateA handle { cs with outstanding := false } s.connections }
      handle r
  | none => (s, [])

/-- TaskContext::accept_new_connection (lib.rs 439-469).  `acceptR` is the
outcome of `listener.accept` (the peer address on success).  On success a
handle is taken, the stream registered under it, the record inserted and
IndConnected sent to the listener's sink. -/
def accept_new_connection (s : TaskContext) (ls_handle : Nat) (acceptR : Option Nat) :
    TaskContext × List Event :=
  match lookupA ls_handle s.listeners with
  | some ls =>
    match acceptR with
    | some peer =>
      let t := contextTake s.next_handle
      let cs : ConnectedSocket :=
        { ind_to := ls.ind_to, handle := t.1, outstanding := false, pending_writes := [] }
      ( { s with
          next_handle := t.2,
          registered := s.registered ++ [cs.handle],
          connections := (cs.handle, cs) :: s.connections },
        [Event.ind ls.ind_to (Indication.connected ⟨ls.handle, cs.handle, peer⟩)] )
    | none => (s, [])
  | none => (s, [])

/-- TaskContext::handle_stream_bind (lib.rs 589-630).  On a successful OS
bind the handle is taken (even if the poller registration then fails, so the
handle is burnt either way); on success the listener is inserted and
registered and CfmBind{Ok(handle)} replied. -/
def handle_stream_bind (s : TaskContext) (context reply_to : Nat)
    (bindR : BindResult) (regR : RegisterResult) : TaskContext × List Event :=
  match bindR with
  | BindResult.ok =>
    let t := contextTake s.next_handle
    let h := t.1
    let s1 := { s with next_handle := t.2 }
    match regR with
    | RegisterResult.ok =>
      ( { s1 with
          listeners := (h, ⟨h, reply_to⟩) :: s1.listeners,
          registered := s1.registered ++ [h] },
        [Event.cfm reply_to (Confirm.bind ⟨RResult.ok h, context⟩)] )
    | RegisterResult.err k =>
      (s1, [Event.cfm reply_to (Confirm.bind ⟨RResult.err (SocketError.ioError k), context⟩)])
  | BindResult.err k =>
    (s, [Event.cfm reply_to (Confirm.bind ⟨RResult.err (SocketError.ioError k), context⟩)])

/-- TaskContext::handle_bind (lib.rs 582-587): dispatch on ConnectionType. -/
def handle_bind (s : TaskContext) (context reply_to : Nat) (ct : ConnectionType)
    (bindR : BindResult) (regR : RegisterResult) : TaskContext × List Event :=
  match ct with
  | ConnectionType.stream => handle_stream_bind s context reply_to bindR regR

/-- TaskContext::new (lib.rs 418-435): empty maps, `next_handle` starts at
MESSAGE_TOKEN + 1 = 1, and the control channel registered under token 0. -/
def TaskContext.init : TaskContext :=
  { listeners := []
    connections := []
    next_handle := MESSAGE_TOKEN + 1
    registered := [MESSAGE_TOKEN] }

/-- One dispatched unit of work of the reactor, with its I/O outcomes
attached: the requests and the response from the control channel, plus the
socket readiness handlers. -/
inductive Op where
  | bind (context reply_to : Nat) (bindR : BindResult) (regR : RegisterResult)
  | close (handle context reply_to : Nat)
  | send (handle context : Nat) (data : List Nat) (reply_to : Nat) (w : WriteResult)
  | received (handle : Nat) (r : ReadResult)
  | accept (ls_handle : Nat) (acceptR : Option Nat)
  | readable (handle : Nat) (r : ReadResult)
  | writable (handle : Nat) (oracle : Nat → WriteResult)

/-- Dispatch one unit of work (the arms of `handle_message` and
`process_event`). -/
def step (s : TaskContext) : Op → TaskContext × List Event
  | Op.bind c rt bR gR => handle_stream_bind s c rt bR gR
  | Op.close h c rt => handle_close s h c rt
  | Op.send h c d rt w => handle_send s h c d rt w
  | Op.received h r => handle_received s h r
  | Op.accept lh aR => accept_new_connection s lh aR
  | Op.readable h r => read_from_socket s h r
  | Op.writable h o => pending_writes s h o

/-- Run a sequence of dispatched units, concatenating the delivered events. -/
def run (s : TaskContext) : List Op → TaskContext × List Event
  | [] => (s, [])
  | op :: ops =>
    let p := step s op
    let q := run p.1 ops
    (q.1, p.2 ++ q.2)

/-- Looking a key up after removing it finds nothing. -/
theorem lookupA_eraseA {α : Type} (k : Nat) (l : List (Nat × α)) :
    lookupA k (eraseA k l) = none := by
  induction l with
  | nil => rfl
  | cons p rest ih =>
    obtain ⟨k', v⟩ := p
    by_cases hk : k' = k
    · simpa [eraseA, hk] using ih
    · simpa [eraseA, lookupA, hk] using ih

/-- C5: the connection read path returns immediately when an indication is
outstanding; otherwise it performs one read of at most MAX_READ_LEN = 2048
bytes and, on n > 0 bytes, truncates the buffer, sets the flag and delivers
IndReceived; on n = 0 or a non-WouldBlock error it invokes the drop path;
on WouldBlock it does nothing. -/
theorem c5_read_path (s : TaskContext) (h : Nat) (cs : ConnectedSocket)
    (hlk : lookupA h s.connections = some cs) :
    MAX_READ_LEN = 2048
    ∧ (cs.outstanding = true → ∀ r, read_from_socket s h r = (s, []))
    ∧ (cs.outstanding = false → ∀ bytes, bytes ≠ [] → bytes.length ≤ MAX_READ_LEN →
        read_from_socket s h (ReadResult.ok bytes)
          = ({ s with connections := updateA h { cs with outstanding := true } s.connections },
             [Event.ind cs.ind_to (Indication.received ⟨cs.handle, bytes⟩)]))
    ∧ (cs.outstanding = false →
        read_from_socket s h (ReadResult.ok []) = dropped s h)
    ∧ (cs.outstanding = false →
        read_from_socket s h (ReadResult.err IOErrorKind.wouldBlock) = (s, []))
    ∧ (cs.outstanding = false → ∀ k, k ≠ IOErrorKind.wouldBlock →
        read_from_socket s h (ReadResult.err k) = dropped s h) := by
  refine ⟨rfl, ?_, ?_, ?_, ?_, ?_⟩
  · intro hout r
    unfold read_from_socket
    rw [hlk]
    cases r <;> simp [hout]
  · intro hout bytes hne hlen
    unfold read_from_socket
    rw [hlk]
    simp only [hout, Bool.false_eq_true, if_false]
    rw [List.take_of_length_le hlen]
    simp [List.length_eq_zero, hne]
  · intro hout
    unfold read_from_socket
    rw [hlk]
    simp [hout, MAX_READ_LEN]
  · intro hout
    unfold read_from_socket
    rw [hlk]
    simp [hout]
  · intro hout k hk
    unfold read_from_socket
    rw [hlk]
    simp [hout, hk]

/-- Witness for c5_read_path at a concrete one-connection state. -/
theorem c5_read_path_witness :
    read_from_socket ⟨[], [(1, ⟨7, 1, false, []⟩)], 2, [0, 1]⟩ 1
        (ReadResult.err IOErrorKind.wouldBlock)
      = (⟨[], [(1, ⟨7, 1, false, []⟩)], 2, [0, 1]⟩, []) := by
  exact (c5_read_path ⟨[], [(1, ⟨7, 1, false, []⟩)], 2, [0, 1]⟩ 1 ⟨7, 1, false, []⟩
    rfl).2.2.2.2.1 rfl

/-- C6: handle_send on a known connection appends to a non-empty queue with
no Confirm; on an empty queue it attempts one write: a complete write
confirms Ok(len), a short write of `wrote < len` bytes enqueues a
PendingWrite with `sent = wrote` and no Confirm, and a write error confirms
Err(IOError(kind)). -/
theorem c6_handle_send (s : TaskContext) (h c : Nat) (data : List Nat) (rt : Nat)
    (cs : ConnectedSocket) (hlk : lookupA h s.connections = some cs) :
    (cs.pending_writes ≠ [] → ∀ w,
      handle_send s h c data rt w
        = ({ s with connections := (updateA h
              { cs with pending_writes := cs.pending_writes ++ [⟨c, 0, data, rt⟩] } s.connections) },
           []))
    ∧ (cs.pending_writes = [] →
        handle_send s h c data rt (WriteResult.ok data.length)
          = ({ s with connections := updateA h { cs with pending_writes := [] } s.connections },
             [Event.cfm rt (Confirm.send ⟨h, RResult.ok data.length, c⟩)]))
    ∧ (cs.pending_writes = [] → ∀ wrote, wrote < data.length →
        handle_send s h c data rt (WriteResult.ok wrote)
          = ({ s with connections := (updateA h
                { cs with pending_writes := [⟨c, wrote, data, rt⟩] } s.connections) },
             []))
    ∧ (cs.pending_writes = [] → ∀ k,
        handle_send s h c data rt (WriteResult.err k)
          = ({ s with connections := updateA h { cs with pending_writes := [] } s.connections },
             [Event.cfm rt (Confirm.send ⟨h, RResult.err (SocketError.ioError k), c⟩)])) := by
  refine ⟨?_, ?_, ?_, ?_⟩
  · intro hq w
    unfold handle_send
    rw [hlk]
    simp [sendOnConn, List.isEmpty_iff, hq]
  · intro hq
    unfold handle_send
    rw [hlk]
    simp [sendOnConn, List.isEmpty_iff, hq]
  · intro hq wrote hw
    unfold handle_send
    rw [hlk]
    simp [sendOnConn, List.isEmpty_iff, hq, hw]
  · intro hq k
    unfold handle_send
    rw [hlk]
    simp [sendOnConn, List.isEmpty_iff, hq]

/-- Witness for c6_handle_send: a complete synchronous write confirms Ok. -/
theorem c6_handle_send_witness :
    handle_send ⟨[], [(1, ⟨7, 1, false, []⟩)], 2, [0, 1]⟩ 1 55 [10, 11] 9
        (WriteResult.ok 2)
      = (⟨[], [(1, ⟨7, 1, false, []⟩)], 2, [0, 1]⟩,
         [Event.cfm 9 (Confirm.send ⟨1, RResult.ok 2, 55⟩)]) := by
  have t := (c6_handle_send ⟨[], [(1, ⟨7, 1, false, []⟩)], 2, [0, 1]⟩ 1 55 [10, 11] 9
    ⟨7, 1, false, []⟩ rfl).2.1 rfl
  simpa [updateA] using t

/-- C8: handle_close removes a present connection and replies CfmClose{Ok}
with the context reflected, after the flush invariant has confirmed every
queued write with Err(Dropped); it emits no IndDropped (no Indication at
all); an unknown handle gets CfmClose{Err(BadHandle)}. -/
theorem c8_handle_close (s : TaskContext) (h c rt : Nat) :
    (∀ cs, lookupA h s.connections = some cs →
      handle_close s h c rt
        = ({ s with connections := eraseA h s.connections },
           flushEvents cs ++ [Event.cfm rt (Confirm.close ⟨h, RResult.ok (), c⟩)])
      ∧ flushEvents cs
        = cs.pending_writes.map (fun pw =>
            Event.cfm pw.reply_to
              (Confirm.send ⟨cs.handle, RResult.err SocketError.dropped, pw.context⟩))
      ∧ (∀ e ∈ (handle_close s h c rt).2, ∀ sink i, e ≠ Event.ind sink i))
    ∧ (lookupA h s.connections = none →
        handle_close s h c rt
          = (s, [Event.cfm rt (Confirm.close ⟨h, RResult.err SocketError.badHandle, c⟩)])) := by
  constructor
  · intro cs hlk
    refine ⟨?_, rfl, ?_⟩
    · unfold handle_close
      rw [hlk]
    · intro e he sink i
      unfold handle_close at he
      rw [hlk] at he
      simp only [List.mem_append, List.mem_singleton] at he
      rcases he with he | he
      · unfold flushEvents flushWrites at he
        simp only [List.mem_map] at he
        obtain ⟨pw, _, hpw⟩ := he
        rw [← hpw]
        intro hcontra
        exact Event.noConfusion hcontra
      · rw [he]
        intro hcontra
        exact Event.noConfusion hcontra
  · intro hlk
    unfold handle_close
    rw [hlk]

/-- Witness for c8_handle_close: closing a connection with one queued write
flushes it with Err(Dropped) and then confirms Ok. -/
theorem c8_handle_close_witness :
    handle_close ⟨[], [(1, ⟨7, 1, false, [⟨99, 0, [5], 8⟩]⟩)], 2, [0, 1]⟩ 1 44 9
      = (⟨[], [], 2, [0, 1]⟩,
         [Event.cfm 8 (Confirm.send ⟨1, RResult.err SocketError.dropped, 99⟩),
          Event.cfm 9 (Confirm.close ⟨1, RResult.ok (), 44⟩)]) := by
  have t := ((c8_handle_close ⟨[], [(1, ⟨7, 1, false, [⟨99, 0, [5], 8⟩]⟩)], 2, [0, 1]⟩
    1 44 9).1 ⟨7, 1, false, [⟨99, 0, [5], 8⟩]⟩ rfl).1
  simpa [eraseA, flushEvents, flushWrites] using t

/-- C9: a RspReceived for a known connection clears `outstanding` and
immediately re-runs the read path on that connection; a stale handle is
silently ignored with no state change and no delivery. -/
theorem c9_handle_received (s : TaskContext) (h : Nat) (r : ReadResult) :
    (∀ cs, lookupA h s.connections = some cs →
      handle_received s h r
        = read_from_socket
            { s with connections := updateA h { cs with outstanding := false } s.connections }
            h r)
    ∧ (lookupA h s.connections = none → handle_received s h r = (s, [])) := by
  constructor
  · intro cs hlk
    unfold handle_received
    rw [hlk]
  · intro hlk
    unfold handle_received
    rw [hlk]

/-- Witness for c9_handle_received: an ack on a blocked connection clears the
flag and the re-read delivers the next bytes. -/
theorem c9_handle_received_witness :
    handle_received ⟨[], [(1, ⟨7, 1, true, []⟩)], 2, [0, 1]⟩ 1 (ReadResult.ok [3])
      = (⟨[], [(1, ⟨7, 1, true, []⟩)], 2, [0, 1]⟩,
         [Event.ind 7 (Indication.received ⟨1, [3]⟩)]) := by
  have t := (c9_handle_received ⟨[], [(1, ⟨7, 1, true, []⟩)], 2, [0, 1]⟩ 1
    (ReadResult.ok [3])).1 ⟨7, 1, true, []⟩ rfl
  rw [t]
  decide

/-- C10: a Close or Send whose handle names a live listener is answered
exactly like an unknown handle, with Err(BadHandle), and leaves the whole
state (in particular the listener) unchanged. -/
theorem c10_listener_close_send (s : TaskContext) (h : Nat) (ls : ListenSocket)
    (hl : lookupA h s.listeners = some ls) (hc : lookupA h s.connections = none) :
    (∀ c rt, handle_close s h c rt
      = (s, [Event.cfm rt (Confirm.close ⟨h, RResult.err SocketError.badHandle, c⟩)]))
    ∧ (∀ c data rt w, handle_send s h c data rt w
        = (s, [Event.cfm rt (Confirm.send ⟨h, RResult.err SocketError.badHandle, c⟩)]))
    ∧ (∀ c rt, lookupA h (handle_close s h c rt).1.listeners = some ls) := by
  refine ⟨?_, ?_, ?_⟩
  · intro c rt
    unfold handle_close
    rw [hc]
  · intro c data rt w
    unfold handle_send
    rw [hc]
  · intro c rt
    unfold handle_close
    rw [hc]
    exact hl

/-- Witness for c10_listener_close_send at a state with one listener. -/
theorem c10_listener_close_send_witness :
    handle_close ⟨[(1, ⟨1, 7⟩)], [], 2, [0, 1]⟩ 1 44 9
      = (⟨[(1, ⟨1, 7⟩)], [], 2, [0, 1]⟩,
         [Event.cfm 9 (Confirm.close ⟨1, RResult.err SocketError.badHandle, 44⟩)]) := by
  exact (c10_listener_close_send ⟨[(1, ⟨1, 7⟩)], [], 2, [0, 1]⟩ 1 ⟨1, 7⟩ rfl rfl).1 44 9

/-- Whether a Confirm or Indication carries the given connection handle. -/
def carriesHandle (h : Nat) : Event → Bool
  | Event.cfm _ (Confirm.bind _) => false
  | Event.cfm _ (Confirm.close m) => m.handle == h
  | Event.cfm _ (Confirm.send m) => m.handle == h
  | Event.ind _ (Indication.connected m) => m.listen_handle == h || m.conn_handle == h
  | Event.ind _ (Indication.dropped m) => m.handle == h
  | Event.ind _ (Indication.received m) => m.handle == h

/-- The events delivered strictly after the first IndDropped for `h`. -/
def afterIndDropped (h : Nat) : List Event → List Event
  | [] => []
  | Event.ind sink (Indication.dropped m) :: rest =>
    if m.handle == h then rest else afterIndDropped h rest
  | _ :: rest => afterIndDropped h rest

/-- The property claimed of a delivery sequence: once IndDropped{h} has been
delivered, no later Confirm or Indication carries handle h. -/
def noDeliveryForHandleAfterDropped (h : Nat) (evs : List Event) : Bool :=
  (afterIndDropped h evs).all (fun e => !(carriesHandle h e))

/-- C1 counterexample: dropping connection 1 while one write is still queued
delivers IndDropped{1} first and then the flush confirm CfmSend{Err(Dropped)}
carrying handle 1 — a Confirm for handle 1 after its IndDropped, refuting the
claim at this input. -/
theorem c1_counterexample :
    noDeliveryForHandleAfterDropped 1
        (dropped ⟨[], [(1, ⟨7, 1, false, [⟨99, 0, [42], 8⟩]⟩)], 2, [0, 1]⟩ 1).2 = false := by
  decide

/-- C1 amended: the drop path delivers IndDropped{h} and then, immediately
after it, exactly the flush confirms CfmSend{Err(Dropped)} for the writes
queued at drop time; the record is gone afterwards, so the stale read, drain
and ack paths for h deliver nothing further. -/
theorem c1_drop_path_after (s : TaskContext) (h : Nat) (cs : ConnectedSocket)
    (hlk : lookupA h s.connections = some cs) :
    (dropped s h).2
      = Event.ind cs.ind_to (Indication.dropped ⟨h⟩)
        :: cs.pending_writes.map (fun pw =>
            Event.cfm pw.reply_to
              (Confirm.send ⟨cs.handle, RResult.err SocketError.dropped, pw.context⟩))
    ∧ lookupA h (dropped s h).1.connections = none
    ∧ (∀ r, read_from_socket (dropped s h).1 h r = ((dropped s h).1, []))
    ∧ (∀ o, pending_writes (dropped s h).1 h o = ((dropped s h).1, []))
    ∧ (∀ r, handle_received (dropped s h).1 h r = ((dropped s h).1, [])) := by
  have hnone : lookupA h (dropped s h).1.connections = none := by
    unfold dropped
    rw [hlk]
    exact lookupA_eraseA h s.connections
  refine ⟨?_, hnone, ?_, ?_, ?_⟩
  · unfold dropped
    rw [hlk]
    simp [flushEvents, flushWrites]
  · intro r
    unfold read_from_socket
    rw [hnone]
  · intro o
    unfold pending_writes
    rw [hnone]
  · intro r
    unfold handle_received
    rw [hnone]

/-- Witness for c1_drop_path_after at a concrete one-connection state. -/
theorem c1_drop_path_after_witness :
    (dropped ⟨[], [(1, ⟨7, 1, false, [⟨99, 0, [42], 8⟩]⟩)], 2, [0, 1]⟩ 1).2
      = [Event.ind 7 (Indication.dropped ⟨1⟩),
         Event.cfm 8 (Confirm.send ⟨1, RResult.err SocketError.dropped, 99⟩)] := by
  have t := (c1_drop_path_after ⟨[], [(1, ⟨7, 1, false, [⟨99, 0, [42], 8⟩]⟩)], 2, [0, 1]⟩ 1
    ⟨7, 1, false, [⟨99, 0, [42], 8⟩]⟩ rfl).1
  simpa using t

/-- C2 counterexample: a Close on connection 1 removes the record (and drops
its socket), yet handle 1 is still registered with the poller afterwards —
a removal that does not deregister, refuting the claim at this input. -/
theorem c2_counterexample :
    lookupA 1 (handle_close ⟨[], [(1, ⟨7, 1, false, []⟩)], 2, [0, 1]⟩ 1 44 9).1.connections
        = none
    ∧ 1 ∈ (handle_close ⟨[], [(1, ⟨7, 1, false, []⟩)], 2, [0, 1]⟩ 1 44 9).1.registered := by
  decide

/-- C2 amended: the drop path does deregister the handle when it removes the
record, but the Close path removes the record and drops its socket without
touching the poller registrations. -/
theorem c2_deregistration (s : TaskContext) (h c rt : Nat) (cs : ConnectedSocket)
    (hlk : lookupA h s.connections = some cs) :
    (dropped s h).1.registered = s.registered.erase h
    ∧ (dropped s h).1.connections = eraseA h s.connections
    ∧ (handle_close s h c rt).1.registered = s.registered
    ∧ (handle_close s h c rt).1.connections = eraseA h s.connections := by
  refine ⟨?_, ?_, ?_, ?_⟩ <;>
    · first
      | (unfold dropped; rw [hlk])
      | (unfold handle_close; rw [hlk])

/-- Witness for c2_deregistration at a concrete one-connection state. -/
theorem c2_deregistration_witness :
    (dropped ⟨[], [(1, ⟨7, 1, false, []⟩)], 2, [0, 1]⟩ 1).1.registered = [0]
    ∧ (handle_close ⟨[], [(1, ⟨7, 1, false, []⟩)], 2, [0, 1]⟩ 1 44 9).1.registered
        = [0, 1] := by
  have t := c2_deregistration ⟨[], [(1, ⟨7, 1, false, []⟩)], 2, [0, 1]⟩ 1 44 9
    ⟨7, 1, false, []⟩ rfl
  exact ⟨t.1, t.2.2.1⟩

/-- C3 counterexample: in the drain path a write returning WouldBlock does
not leave the pending write queued without a Confirm — it dequeues the write
and emits CfmSend{Err(IOError(WouldBlock))}, refuting the claim at this
input. -/
theorem c3_counterexample :
    ¬ ((pending_writes ⟨[], [(1, ⟨7, 1, false, [⟨99, 0, [1, 2, 3], 8⟩]⟩)], 2, [0, 1]⟩ 1
          (fun _ => WriteResult.err IOErrorKind.wouldBlock)).2 = []
        ∧ lookupA 1 (pending_writes ⟨[], [(1, ⟨7, 1, false, [⟨99, 0, [1, 2, 3], 8⟩]⟩)], 2, [0, 1]⟩ 1
            (fun _ => WriteResult.err IOErrorKind.wouldBlock)).1.connections
          = some ⟨7, 1, false, [⟨99, 0, [1, 2, 3], 8⟩]⟩) := by
  decide

/-- C3 amended: the read path does treat WouldBlock as a non-error no-op;
the drain path stops without a Confirm only on a partial write (which stays
queued at the front), while any write error — WouldBlock included — dequeues
the front write, confirms CfmSend{Err(IOError(kind))} for it and stops with
the remaining writes still queued. -/
theorem c3_drain_wouldblock (s : TaskContext) (h : Nat) (cs : ConnectedSocket)
    (hlk : lookupA h s.connections = some cs) (hout : cs.outstanding = false) :
    read_from_socket s h (ReadResult.err IOErrorKind.wouldBlock) = (s, [])
    ∧ (∀ o pw rest len, o 0 = WriteResult.ok len → len < pw.data.length - pw.sent →
        drainWrites h o 0 (pw :: rest) = ({ pw with sent := pw.sent + len } :: rest, []))
    ∧ (∀ o pw rest k, o 0 = WriteResult.err k →
        drainWrites h o 0 (pw :: rest)
          = (rest,
             [Event.cfm pw.reply_to
               (Confirm.send ⟨h, RResult.err (SocketError.ioError k), pw.context⟩)])) := by
  refine ⟨?_, ?_, ?_⟩
  · unfold read_from_socket
    rw [hlk]
    simp [hout]
  · intro o pw rest len ho hlt
    unfold drainWrites
    rw [ho]
    simp [hlt]
  · intro o pw rest k ho
    unfold drainWrites
    rw [ho]

/-- Witness for c3_drain_wouldblock: a WouldBlock write error dequeues and
confirms the front write. -/
theorem c3_drain_wouldblock_witness :
    drainWrites 1 (fun _ => WriteResult.err IOErrorKind.wouldBlock) 0 [⟨99, 0, [1, 2, 3], 8⟩]
      = ([],
         [Event.cfm 8
           (Confirm.send ⟨1, RResult.err (SocketError.ioError IOErrorKind.wouldBlock), 99⟩)]) := by
  exact (c3_drain_wouldblock ⟨[], [(1, ⟨7, 1, false, []⟩)], 2, [0, 1]⟩ 1 ⟨7, 1, false, []⟩
    rfl rfl).2.2 (fun _ => WriteResult.err IOErrorKind.wouldBlock) ⟨99, 0, [1, 2, 3], 8⟩ [] _ rfl

/-- The events that can touch one connection's pending-write queue during
its lifetime: a Send request dispatched to it (with the outcome of the
synchronous write attempt) and a writable wake-up (with the outcomes of the
drain loop's write calls). -/
inductive CStep where
  | send (context : Nat) (data : List Nat) (reply_to : Nat) (w : WriteResult)
  | writable (oracle : Nat → WriteResult)

/-- Run a connection's lifetime steps over its pending-write queue,
collecting the delivered events. -/
def runConn (h : Nat) : List PendingWrite → List CStep → List PendingWrite × List Event
  | q, [] => (q, [])
  | q, CStep.send c d rt w :: rest =>
    let p := sendOnConn h c d rt w q
    let r := runConn h p.1 rest
    (r.1, p.2 ++ r.2)
  | q, CStep.writable o :: rest =>
    let p := drainWrites h o 0 q
    let r := runConn h p.1 rest
    (r.1, p.2 ++ r.2)

/-- All Send-related events of a connection that starts with an empty queue,
lives through `steps`, and is then destroyed (Close or drop path), at which
point its destructor flushes the queue. -/
def traceConn (h : Nat) (steps : List CStep) : List Event :=
  let p := runConn h [] steps
  p.2 ++ flushWrites h p.1

/-- Recogniser for a CfmSend whose context is `c`. -/
def isSendCfmCtx (c : Nat) : Event → Bool
  | Event.cfm _ (Confirm.send m) => m.context == c
  | _ => false

/-- Number of CfmSend deliveries carrying context `c`. -/
def cfmSendCount (c : Nat) (evs : List Event) : Nat :=
  evs.countP (isSendCfmCtx c)

/-- Number of queued writes carrying context `c`. -/
def queuedCount (c : Nat) (q : List PendingWrite) : Nat :=
  q.countP (fun pw => pw.context == c)

/-- Number of Send requests carrying context `c` among the lifetime steps. -/
def sendReqCount (c : Nat) (steps : List CStep) : Nat :=
  steps.countP (fun st =>
    match st with
    | CStep.send c' _ _ _ => c' == c
    | _ => false)

/-- A CfmSend on handle `h` whose result is Ok, Err(IOError) or
Err(Dropped). -/
def sendShape (h : Nat) : Event → Bool
  | Event.cfm _ (Confirm.send m) =>
    m.handle == h &&
      (match m.result with
       | RResult.ok _ => true
       | RResult.err (SocketError.ioError _) => true
       | RResult.err SocketError.dropped => true
       | _ => false)
  | _ => false

/-- The Ok payloads of the CfmSend deliveries carrying context `c`. -/
def okSendValues (c : Nat) (evs : List Event) : List Nat :=
  evs.filterMap (fun e =>
    match e with
    | Event.cfm _ (Confirm.send m) =>
      if m.context == c then
        match m.result with
        | RResult.ok n => some n
        | RResult.err _ => none
      else none
    | _ => none)

/-- Each drained-or-stopped queue plus the drain's confirms accounts exactly
for the writes that entered the drain. -/
theorem drainWrites_count (c h : Nat) (o : Nat → WriteResult) :
    ∀ q i, cfmSendCount c (drainWrites h o i q).2 + queuedCount c (drainWrites h o i q).1
      = queuedCount c q := by
  intro q
  induction q with
  | nil => intro i; simp [drainWrites, cfmSendCount, queuedCount]
  | cons pw rest ih =>
    intro i
    rcases h1 : o i with len | k
    · by_cases h2 : len < pw.data.length - pw.sent
      · simp [drainWrites, h1, h2, cfmSendCount, queuedCount, List.countP_cons, isSendCfmCtx]
      · have := ih (i + 1)
        simp only [drainWrites, h1, h2, if_false] at *
        simp only [cfmSendCount, queuedCount, List.countP_cons, isSendCfmCtx] at *
        omega
    · simp [drainWrites, h1, cfmSendCount, queuedCount, List.countP_cons, isSendCfmCtx]
      omega

/-- A Send request accounts for exactly one unit: either its immediate
confirm or its queue entry. -/
theorem sendOnConn_count (c hh ctx : Nat) (d : List Nat) (rt : Nat) (w : WriteResult)
    (q : List PendingWrite) :
    cfmSendCount c (sendOnConn hh ctx d rt w q).2
        + queuedCount c (sendOnConn hh ctx d rt w q).1
      = (if ctx == c then 1 else 0) + queuedCount c q := by
  by_cases hq : q.isEmpty
  · rcases w with len | k
    · by_cases h2 : len < d.length
      · simp [sendOnConn, hq, h2, cfmSendCount, queuedCount, List.countP_append,
          List.countP_cons, isSendCfmCtx]
        try omega
      · simp [sendOnConn, hq, h2, cfmSendCount, queuedCount, List.countP_cons, isSendCfmCtx]
        try omega
    · simp [sendOnConn, hq, cfmSendCount, queuedCount, List.countP_cons, isSendCfmCtx]
      try omega
  · simp [sendOnConn, hq, cfmSendCount, queuedCount, List.countP_append, List.countP_cons,
      isSendCfmCtx]
    try omega

/-- Running lifetime steps preserves the per-context accounting. -/
theorem runConn_count (c h : Nat) (steps : List CStep) :
    ∀ q, cfmSendCount c (runConn h q steps).2 + queuedCount c (runConn h q steps).1
      = sendReqCount c steps + queuedCount c q := by
  induction steps with
  | nil => intro q; simp [runConn, cfmSendCount, sendReqCount]
  | cons st rest ih =>
    intro q
    cases st with
    | send ctx d rt w =>
      have h1 := sendOnConn_count c h ctx d rt w q
      have h2 := ih (sendOnConn h ctx d rt w q).1
      simp [runConn, cfmSendCount, sendReqCount, List.countP_append,
        List.countP_cons] at *
      omega
    | writable o =>
      have h1 := drainWrites_count c h o q 0
      have h2 := ih (drainWrites h o 0 q).1
      simp [runConn, cfmSendCount, sendReqCount, List.countP_append,
        List.countP_cons] at *
      omega

/-- The destructor's flush confirms exactly the still-queued writes. -/
theorem flushWrites_count (c h : Nat) (q : List PendingWrite) :
    cfmSendCount c (flushWrites h q) = queuedCount c q := by
  induction q with
  | nil => rfl
  | cons pw rest ih =>
    simp only [flushWrites, List.map_cons, cfmSendCount, queuedCount, List.countP_cons,
      isSendCfmCtx] at *
    omega

/-- Every event the drain loop emits is a CfmSend on the drained handle with
an Ok or Err(IOError) result. -/
theorem drainWrites_shape (h : Nat) (o : Nat → WriteResult) :
    ∀ q i, ((drainWrites h o i q).2.all (sendShape h)) = true := by
  intro q
  induction q with
  | nil => intro i; simp [drainWrites]
  | cons pw rest ih =>
    intro i
    rcases h1 : o i with len | k
    · by_cases h2 : len < pw.data.length - pw.sent
      · simp [drainWrites, h1, h2]
      · have := ih (i + 1)
        simp only [drainWrites, h1, h2, if_false, List.all_cons] at *
        simp [sendShape, this]
    · simp [drainWrites, h1, sendShape]

/-- Every event the Send-request path emits is a CfmSend on the request's
handle with an Ok or Err(IOError) result. -/
theorem sendOnConn_shape (hh ctx : Nat) (d : List Nat) (rt : Nat) (w : WriteResult)
    (q : List PendingWrite) :
    ((sendOnConn hh ctx d rt w q).2.all (sendShape hh)) = true := by
  by_cases hq : q.isEmpty
  · rcases w with len | k
    · by_cases h2 : len < d.length <;> simp [sendOnConn, hq, h2, sendShape]
    · simp [sendOnConn, hq, sendShape]
  · simp [sendOnConn, hq]

/-- Every flush event is a CfmSend on the destroyed handle with result
Err(Dropped). -/
theorem flushWrites_shape (h : Nat) (q : List PendingWrite) :
    ((flushWrites h q).all (sendShape h)) = true := by
  induction q with
  | nil => rfl
  | cons pw rest ih =>
    simp only [flushWrites, List.map_cons, List.all_cons] at *
    simp [sendShape, ih]

/-- All events of a connection lifetime are well-shaped CfmSends. -/
theorem runConn_shape (h : Nat) (steps : List CStep) :
    ∀ q, ((runConn h q steps).2.all (sendShape h)) = true := by
  induction steps with
  | nil => intro q; simp [runConn]
  | cons st rest ih =>
    intro q
    cases st with
    | send ctx d rt w => simp [runConn, List.all_append, sendOnConn_shape, ih]
    | writable o => simp [runConn, List.all_append, drainWrites_shape, ih]

/-- Queue invariant: partial-send counters stay within the data, and queued
writes with the context of interest carry the expected data. -/
def goodQueue (c : Nat) (d : List Nat) (q : List PendingWrite) : Prop :=
  ∀ pw ∈ q, pw.sent ≤ pw.data.length ∧ (pw.context = c → pw.data = d)

/-- okSendValues distributes over append. -/
theorem okSendValues_append (c : Nat) (a b : List Event) :
    okSendValues c (a ++ b) = okSendValues c a ++ okSendValues c b := by
  unfold okSendValues
  exact List.filterMap_append a b _

/-- Flush confirms carry no Ok payloads. -/
theorem flushWrites_okValues (c h : Nat) (q : List PendingWrite) :
    okSendValues c (flushWrites h q) = [] := by
  unfold okSendValues flushWrites
  rw [List.filterMap_map]
  apply List.filterMap_eq_nil_iff.mpr
  intro pw hpw
  by_cases hc : (pw.context == c) = true <;> simp [hc]

/-- okSendValues on a cons of an Ok send confirm. -/
theorem okSendValues_cons_cfm (c sink hh n0 ctx : Nat) (evs : List Event) :
    okSendValues c (Event.cfm sink (Confirm.send ⟨hh, RResult.ok n0, ctx⟩) :: evs)
      = (if ctx = c then [n0] else []) ++ okSendValues c evs := by
  by_cases hc : ctx = c <;> simp [okSendValues, hc]

/-- okSendValues on a cons of an Err send confirm. -/
theorem okSendValues_cons_errcfm (c sink hh : Nat) (e : SocketError) (ctx : Nat)
    (evs : List Event) :
    okSendValues c (Event.cfm sink (Confirm.send ⟨hh, RResult.err e, ctx⟩) :: evs)
      = okSendValues c evs := by
  by_cases hc : ctx = c <;> simp [okSendValues, hc]

/-- Under the queue invariant, the drain loop preserves it and every Ok
confirm it emits for context `c` carries the full data length. -/
theorem drainWrites_okValues (c h : Nat) (d : List Nat) (o : Nat → WriteResult) :
    ∀ q i, goodQueue c d q →
      goodQueue c d (drainWrites h o i q).1
      ∧ ∀ n ∈ okSendValues c (drainWrites h o i q).2, n = d.length := by
  intro q
  induction q with
  | nil =>
    intro i hg
    exact ⟨hg, by simp [drainWrites, okSendValues]⟩
  | cons pw rest ih =>
    intro i hg
    have hpw := hg pw (List.mem_cons_self pw rest)
    have hle := hpw.1
    have hrest : goodQueue c d rest := fun x hx => hg x (List.mem_cons_of_mem pw hx)
    rcases h1 : o i with len | k
    · by_cases h2 : len < pw.data.length - pw.sent
      · refine ⟨?_, by simp [drainWrites, h1, h2, okSendValues]⟩
        intro x hx
        simp only [drainWrites, h1, h2, if_true] at hx
        rcases List.mem_cons.mp hx with rfl | hx
        · exact ⟨by show pw.sent + len ≤ pw.data.length; omega, hpw.2⟩
        · exact hrest x hx
      · have hrec := ih (i + 1) hrest
        refine ⟨by simpa [drainWrites, h1, h2] using hrec.1, ?_⟩
        intro n hn
        simp only [drainWrites, h1, h2, if_false] at hn
        rw [okSendValues_cons_cfm] at hn
        rcases List.mem_append.mp hn with hn | hn
        · by_cases hc : pw.context = c
          · rw [if_pos hc, List.mem_singleton] at hn
            rw [hn, Nat.add_sub_cancel' hle, hpw.2 hc]
          · rw [if_neg hc] at hn
            cases hn
        · exact hrec.2 n hn
    · refine ⟨by simpa [drainWrites, h1] using hrest, ?_⟩
      intro n hn
      simp only [drainWrites, h1] at hn
      rw [okSendValues_cons_errcfm] at hn
      simp [okSendValues] at hn

/-- The Send-request path preserves the queue invariant, and its Ok confirm
for context `c` carries the submitted data length. -/
theorem sendOnConn_okValues (c hh ctx : Nat) (dstep d : List Nat) (rt : Nat)
    (w : WriteResult) (q : List PendingWrite)
    (hctx : ctx = c → dstep = d) (hg : goodQueue c d q) :
    goodQueue c d (sendOnConn hh ctx dstep rt w q).1
    ∧ ∀ n ∈ okSendValues c (sendOnConn hh ctx dstep rt w q).2, n = d.length := by
  by_cases hq : q.isEmpty
  · rcases w with len | k
    · by_cases h2 : len < dstep.length
      · refine ⟨?_, by simp [sendOnConn, hq, h2, okSendValues]⟩
        intro x hx
        simp only [sendOnConn, hq, h2, if_true, if_false, ite_true, ite_false] at hx
        rcases List.mem_append.mp hx with hx | hx
        · exact hg x hx
        · rw [List.mem_singleton] at hx
          subst hx
          exact ⟨Nat.le_of_lt h2, hctx⟩
      · refine ⟨by simpa [sendOnConn, hq, h2] using hg, ?_⟩
        intro n hn
        simp only [sendOnConn, hq, h2, if_true, if_false, ite_true, ite_false] at hn
        rw [show okSendValues c [Event.cfm rt (Confirm.send ⟨hh, RResult.ok dstep.length, ctx⟩)]
            = okSendValues c (Event.cfm rt (Confirm.send ⟨hh, RResult.ok dstep.length, ctx⟩) :: [])
            from rfl, okSendValues_cons_cfm] at hn
        rcases List.mem_append.mp hn with hn | hn
        · by_cases hc : ctx = c
          · rw [if_pos hc, List.mem_singleton] at hn
            rw [hn, hctx hc]
          · rw [if_neg hc] at hn
            cases hn
        · simp [okSendValues] at hn
    · refine ⟨by simpa [sendOnConn, hq] using hg, ?_⟩
      intro n hn
      simp only [sendOnConn, hq, if_true, ite_true] at hn
      rw [show okSendValues c
            [Event.cfm rt (Confirm.send ⟨hh, RResult.err (SocketError.ioError k), ctx⟩)]
          = okSendValues c
              (Event.cfm rt (Confirm.send ⟨hh, RResult.err (SocketError.ioError k), ctx⟩) :: [])
          from rfl, okSendValues_cons_errcfm] at hn
      simp [okSendValues] at hn
  · refine ⟨?_, by simp [sendOnConn, hq, okSendValues]⟩
    intro x hx
    simp only [sendOnConn, hq, if_false] at hx
    rcases List.mem_append.mp hx with hx | hx
    · exact hg x hx
    · rw [List.mem_singleton] at hx
      subst hx
      exact ⟨Nat.zero_le _, hctx⟩

/-- Over a whole lifetime whose Sends for context `c` all carry data `d`,
the queue invariant is preserved and every Ok confirm for `c` carries
`d.length`. -/
theorem runConn_okValues (c h : Nat) (d : List Nat) (steps : List CStep)
    (hsteps : ∀ ctx d0 rt w, CStep.send ctx d0 rt w ∈ steps → ctx = c → d0 = d) :
    ∀ q, goodQueue c d q →
      goodQueue c d (runConn h q steps).1
      ∧ ∀ n ∈ okSendValues c (runConn h q steps).2, n = d.length := by
  induction steps with
  | nil =>
    intro q hg
    exact ⟨hg, by simp [runConn, okSendValues]⟩
  | cons st rest ih =>
    have hrest : ∀ ctx d0 rt w, CStep.send ctx d0 rt w ∈ rest → ctx = c → d0 = d :=
      fun ctx d0 rt w hm => hsteps ctx d0 rt w (List.mem_cons_of_mem st hm)
    intro q hg
    cases st with
    | send ctx d0 rt w =>
      have hctx : ctx = c → d0 = d :=
        hsteps ctx d0 rt w (List.mem_cons_self _ _)
      have h1 := sendOnConn_okValues c h ctx d0 d rt w q hctx hg
      have h2 := ih hrest (sendOnConn h ctx d0 rt w q).1 h1.1
      refine ⟨by simpa [runConn] using h2.1, ?_⟩
      intro n hn
      simp only [runConn] at hn
      rw [okSendValues_append] at hn
      rcases List.mem_append.mp hn with hn | hn
      · exact h1.2 n hn
      · exact h2.2 n hn
    | writable o =>
      have h1 := drainWrites_okValues c h d o q 0 hg
      have h2 := ih hrest (drainWrites h o 0 q).1 h1.1
      refine ⟨by simpa [runConn] using h2.1, ?_⟩
      intro n hn
      simp only [runConn] at hn
      rw [okSendValues_append] at hn
      rcases List.mem_append.mp hn with hn | hn
      · exact h1.2 n hn
      · exact h2.2 n hn

/-- C4: over any lifetime of a connection that starts with an empty queue
and ends in destruction, every accepted Send with context `c` produces
exactly one CfmSend with that context (none forgotten, none duplicated);
every such event is a CfmSend on that handle resulting Ok, Err(IOError) or
Err(Dropped); and when the Sends with context `c` all submitted data `d`,
any Ok confirm for `c` carries the total length `d.length`. -/
theorem c4_send_confirm_accounting (h c : Nat) (steps : List CStep) :
    cfmSendCount c (traceConn h steps) = sendReqCount c steps
    ∧ (traceConn h steps).all (sendShape h) = true
    ∧ ∀ d : List Nat,
        (∀ ctx d0 rt w, CStep.send ctx d0 rt w ∈ steps → ctx = c → d0 = d) →
        ∀ n ∈ okSendValues c (traceConn h steps), n = d.length := by
  refine ⟨?_, ?_, ?_⟩
  · have h1 := runConn_count c h steps []
    have h2 := flushWrites_count c h (runConn h [] steps).1
    simp only [traceConn, cfmSendCount, queuedCount, List.countP_append, List.countP_nil]
      at h1 h2 ⊢
    omega
  · simp [traceConn, List.all_append, runConn_shape, flushWrites_shape]
  · intro d hd n hn
    have hg : goodQueue c d [] := by intro x hx; cases hx
    have h1 := runConn_okValues c h d steps hd [] hg
    simp only [traceConn] at hn
    rw [okSendValues_append] at hn
    rcases List.mem_append.mp hn with hn | hn
    · exact h1.2 n hn
    · rw [flushWrites_okValues] at hn
      cases hn

/-- Witness for c4_send_confirm_accounting: one accepted Send that completes
in two halves (a partial synchronous write, then a drain) confirms exactly
once with Ok of the full length. -/
theorem c4_send_confirm_accounting_witness :
    cfmSendCount 5
        (traceConn 1 [CStep.send 5 [1, 2] 9 (WriteResult.ok 1),
          CStep.writable (fun _ => WriteResult.ok 1)])
      = sendReqCount 5 [CStep.send 5 [1, 2] 9 (WriteResult.ok 1),
          CStep.writable (fun _ => WriteResult.ok 1)]
    ∧ ∀ n ∈ okSendValues 5
        (traceConn 1 [CStep.send 5 [1, 2] 9 (WriteResult.ok 1),
          CStep.writable (fun _ => WriteResult.ok 1)]), n = 2 := by
  have t := c4_send_confirm_accounting 1 5
    [CStep.send 5 [1, 2] 9 (WriteResult.ok 1), CStep.writable (fun _ => WriteResult.ok 1)]
  refine ⟨t.1, ?_⟩
  intro n hn
  refine t.2.2 [1, 2] ?_ n hn
  intro ctx d0 rt w hm hc
  rcases List.mem_cons.mp hm with he | hm
  · cases he
    rfl
  · rcases List.mem_cons.mp hm with he | hm
    · cases he
    · cases hm

/-- The handle, if any, that an event hands out to the client (a CfmBind
carrying Ok(handle) or an IndConnected carrying conn_handle). -/
def allocOf : Event → List Nat
  | Event.cfm _ (Confirm.bind m) =>
    match m.result with
    | RResult.ok h => [h]
    | RResult.err _ => []
  | Event.ind _ (Indication.connected m) => [m.conn_handle]
  | _ => []

/-- All handles handed out by a sequence of events, in delivery order. -/
def allocsOf : List Event → List Nat
  | [] => []
  | e :: rest => allocOf e ++ allocsOf rest

theorem allocsOf_append (a b : List Event) :
    allocsOf (a ++ b) = allocsOf a ++ allocsOf b := by
  induction a with
  | nil => rfl
  | cons e rest ih => simp [allocsOf, ih]

theorem allocsOf_flushWrites (h : Nat) (q : List PendingWrite) :
    allocsOf (flushWrites h q) = [] := by
  induction q with
  | nil => rfl
  | cons pw rest ih => simpa [flushWrites, allocsOf, allocOf] using ih

theorem allocsOf_drainWrites (h : Nat) (o : Nat → WriteResult) :
    ∀ q i, allocsOf (drainWrites h o i q).2 = [] := by
  intro q
  induction q with
  | nil => intro i; rfl
  | cons pw rest ih =>
    intro i
    rcases h1 : o i with len | k
    · by_cases h2 : len < pw.data.length - pw.sent
      · simp [drainWrites, h1, h2, allocsOf]
      · simp [drainWrites, h1, h2, allocsOf, allocOf, ih (i + 1)]
    · simp [drainWrites, h1, allocsOf, allocOf]

theorem allocsOf_sendOnConn (hh ctx : Nat) (d : List Nat) (rt : Nat) (w : WriteResult)
    (q : List PendingWrite) : allocsOf (sendOnConn hh ctx d rt w q).2 = [] := by
  by_cases hq : q.isEmpty
  · rcases w with len | k
    · by_cases h2 : len < d.length <;> simp [sendOnConn, hq, h2, allocsOf, allocOf]
    · simp [sendOnConn, hq, allocsOf, allocOf]
  · simp [sendOnConn, hq, allocsOf]

theorem allocsOf_dropped (s : TaskContext) (h : Nat) :
    allocsOf (dropped s h).2 = [] ∧ (dropped s h).1.next_handle = s.next_handle := by
  rcases hlk : lookupA h s.connections with _ | cs <;>
    simp [dropped, hlk, allocsOf, allocOf, flushEvents, allocsOf_flushWrites]

theorem allocsOf_read (s : TaskContext) (h : Nat) (r : ReadResult) :
    allocsOf (read_from_socket s h r).2 = []
    ∧ (read_from_socket s h r).1.next_handle = s.next_handle := by
  rcases hlk : lookupA h s.connections with _ | cs
  · simp [read_from_socket, hlk, allocsOf]
  · by_cases hout : cs.outstanding = true
    · simp [read_from_socket, hlk, hout, allocsOf]
    · rcases r with bytes | k
      · simp only [read_from_socket, hlk, if_neg hout]
        split
        · exact allocsOf_dropped s h
        · simp [allocsOf, allocOf]
      · simp only [read_from_socket, hlk, if_neg hout]
        split
        · simp [allocsOf]
        · exact allocsOf_dropped s h

/-- Each dispatched unit of work either allocates no handle (and does not
decrease the counter) or hands out exactly the current counter value and
increments it by one. -/
theorem step_allocs (s : TaskContext) (op : Op) :
    (allocsOf (step s op).2 = [] ∧ s.next_handle ≤ (step s op).1.next_handle)
    ∨ (allocsOf (step s op).2 = [s.next_handle]
       ∧ (step s op).1.next_handle = s.next_handle + 1) := by
  cases op with
  | bind c rt bR gR =>
    cases bR with
    | ok =>
      cases gR with
      | ok =>
        right
        simp [step, handle_stream_bind, contextTake, allocsOf, allocOf]
      | err k =>
        left
        simp [step, handle_stream_bind, contextTake, allocsOf, allocOf]
    | err k =>
      left
      simp [step, handle_stream_bind, allocsOf, allocOf]
  | close h c rt =>
    left
    rcases hlk : lookupA h s.connections with _ | cs
    · simp [step, handle_close, hlk, allocsOf, allocOf]
    · simp [step, handle_close, hlk, allocsOf_append, allocsOf, allocOf, flushEvents,
        allocsOf_flushWrites]
  | send h c d rt w =>
    left
    rcases hlk : lookupA h s.connections with _ | cs
    · simp [step, handle_send, hlk, allocsOf, allocOf]
    · simp [step, handle_send, hlk, allocsOf_sendOnConn]
  | received h r =>
    left
    rcases hlk : lookupA h s.connections with _ | cs
    · simp [step, handle_received, hlk, allocsOf]
    · have := allocsOf_read
        { s with connections := updateA h { cs with outstanding := false } s.connections } h r
      constructor
      · simpa [step, handle_received, hlk] using this.1
      · simp only [step, handle_received, hlk]
        exact le_of_eq this.2.symm
  | accept lh aR =>
    rcases hlk : lookupA lh s.listeners with _ | ls
    · left
      simp [step, accept_new_connection, hlk, allocsOf]
    · cases aR with
      | none =>
        left
        simp [step, accept_new_connection, hlk, allocsOf]
      | some peer =>
        right
        simp [step, accept_new_connection, hlk, contextTake, allocsOf, allocOf]
  | readable h r =>
    left
    have := allocsOf_read s h r
    exact ⟨this.1, le_of_eq this.2.symm⟩
  | writable h o =>
    left
    rcases hlk : lookupA h s.connections with _ | cs
    · simp [step, pending_writes, hlk, allocsOf]
    · simp [step, pending_writes, hlk, allocsOf_drainWrites]

/-- Over any run, handed-out handles are at least the starting counter,
below the final counter, and strictly increasing. -/
theorem run_allocs (ops : List Op) : ∀ s : TaskContext,
    s.next_handle ≤ (run s ops).1.next_handle
    ∧ (∀ h ∈ allocsOf (run s ops).2, s.next_handle ≤ h ∧ h < (run s ops).1.next_handle)
    ∧ List.Pairwise (· < ·) (allocsOf (run s ops).2) := by
  induction ops with
  | nil =>
    intro s
    simp [run, allocsOf]
  | cons op rest ih =>
    intro s
    have hrest := ih (step s op).1
    have e1 : (run s (op :: rest)).1 = (run (step s op).1 rest).1 := rfl
    have e2 : (run s (op :: rest)).2 = (step s op).2 ++ (run (step s op).1 rest).2 := rfl
    rcases step_allocs s op with ⟨he, hle⟩ | ⟨he, hnext⟩
    · refine ⟨?_, ?_, ?_⟩
      · rw [e1]
        exact le_trans hle hrest.1
      · intro h hm
        rw [e2, allocsOf_append, he, List.nil_append] at hm
        obtain ⟨hb1, hb2⟩ := hrest.2.1 h hm
        rw [e1]
        exact ⟨le_trans hle hb1, hb2⟩
      · rw [e2, allocsOf_append, he, List.nil_append]
        exact hrest.2.2
    · refine ⟨?_, ?_, ?_⟩
      · rw [e1]
        have := hrest.1
        rw [hnext] at this
        omega
      · intro h hm
        rw [e2, allocsOf_append, he, List.singleton_append] at hm
        rcases List.mem_cons.mp hm with rfl | hm
        · refine ⟨le_refl _, ?_⟩
          rw [e1]
          have := hrest.1
          rw [hnext] at this
          omega
        · obtain ⟨hb1, hb2⟩ := hrest.2.1 h hm
          rw [hnext] at hb1
          rw [e1]
          exact ⟨by omega, hb2⟩
      · rw [e2, allocsOf_append, he, List.singleton_append]
        rw [List.pairwise_cons]
        refine ⟨?_, hrest.2.2⟩
        intro b hb
        have := (hrest.2.1 b hb).1
        rw [hnext] at this
        omega

/-- C7: the (spec-modelled) allocator take() returns the current counter and
post-increments it; the task starts the counter at 1; hence over any run of
the task all handles handed out (listener handles via CfmBind and connection
handles via IndConnected alike) are pairwise distinct, monotonically
increasing (so never recycled) and never 0. -/
theorem c7_handle_allocator (ops : List Op) :
    (∀ n, contextTake n = (n, n + 1))
    ∧ TaskContext.init.next_handle = 1
    ∧ List.Pairwise (· < ·) (allocsOf (run TaskContext.init ops).2)
    ∧ ∀ h ∈ allocsOf (run TaskContext.init ops).2, h ≠ 0 := by
  have t := run_allocs ops TaskContext.init
  refine ⟨fun n => rfl, rfl, t.2.2, ?_⟩
  intro h hm
  have h1 := (t.2.1 h hm).1
  have h2 : TaskContext.init.next_handle = 1 := rfl
  omega

/-- Witness for c7_handle_allocator: two successful binds then an accept
hand out handles 1, 2, 3 — pairwise increasing and nonzero. -/
theorem c7_handle_allocator_witness :
    List.Pairwise (· < ·)
      (allocsOf (run TaskContext.init
        [Op.bind 10 7 BindResult.ok RegisterResult.ok,
         Op.bind 11 7 BindResult.ok RegisterResult.ok,
         Op.accept 1 (some 99)]).2)
    ∧ ∀ h ∈ allocsOf (run TaskContext.init
        [Op.bind 10 7 BindResult.ok RegisterResult.ok,
         Op.bind 11 7 BindResult.ok RegisterResult.ok,
         Op.accept 1 (some 99)]).2, h ≠ 0 := by
  have t := c7_handle_allocator
    [Op.bind 10 7 BindResult.ok RegisterResult.ok,
     Op.bind 11 7 BindResult.ok RegisterResult.ok,
     Op.accept 1 (some 99)]
  exact ⟨t.2.2.1, t.2.2.2⟩

end Grease
